import Mathlib

/-!
Shallow embedding of the metrics-aggregation and best-record-scanning core of
the BenchBoard server (`app.py`).  Machine reals are modelled by `RFloat`
(rationals plus the IEEE special values that this program can produce);
timestamps are modelled by rationals; Python `None` by `Option`; a JSON record
whose read or parse raises is modelled by `none : Option RecordFile`.
-/

/-- Model of the IEEE double values reachable in this program: finite values
(as exact rationals), positive infinity (`float('inf')` is used as a sentinel
by the best-latency reduction and is produced by interpolation against the
open-ended histogram bucket), and NaN.  Negative infinity cannot arise in the
modelled code and is collapsed into `nan`. -/
inductive RFloat where
  | nan : RFloat
  | inf : RFloat
  | fin : ℚ → RFloat
deriving DecidableEq, Repr

/-- IEEE comparison `q < x` of a finite value against an `RFloat`
(any comparison against NaN is false). -/
def rltQ (q : ℚ) : RFloat → Bool
  | .nan => false
  | .inf => true
  | .fin b => decide (q < b)

/-- IEEE comparison `x < y` on `RFloat` (false whenever either side is NaN,
and `inf < inf` is false). -/
def rltF : RFloat → RFloat → Bool
  | .fin a, .fin b => decide (a < b)
  | .fin _, .inf => true
  | _, _ => false

/-- IEEE subtraction on `RFloat` for the operand shapes this program reaches;
`inf - inf`, NaN operands and the (unreachable) negative-infinity results are
collapsed to `nan`. -/
def rsubF : RFloat → RFloat → RFloat
  | .fin a, .fin b => .fin (a - b)
  | .inf, .fin _ => .inf
  | _, _ => .nan

/-- IEEE multiplication of a finite value by an `RFloat`; `0 * inf` is NaN and
a negative multiple of `inf` (negative infinity, unreachable here) is also
collapsed to `nan`. -/
def rmulQ (r : ℚ) : RFloat → RFloat
  | .fin b => .fin (r * b)
  | .inf => if 0 < r then .inf else .nan
  | .nan => .nan

/-- IEEE addition on `RFloat` (NaN operands propagate). -/
def raddF : RFloat → RFloat → RFloat
  | .fin a, .fin b => .fin (a + b)
  | .fin _, .inf => .inf
  | .inf, .fin _ => .inf
  | .inf, .inf => .inf
  | _, _ => .nan

/-- The fixed histogram bucket boundaries of `calculate_p99_latency`
(`app.py` line 108): `[1, 2, 5, 10, 20, 50, 100, 200, 500, 1000, 2000, 5000, inf]`. -/
def bucketBoundaries : List RFloat :=
  [.fin 1, .fin 2, .fin 5, .fin 10, .fin 20, .fin 50, .fin 100, .fin 200, .fin 500,
   .fin 1000, .fin 2000, .fin 5000, .inf]

/-- The cumulative loop of `calculate_p99_latency` (`app.py` lines 116-129):
walks the buckets accumulating counts; at the first bucket whose cumulative
count reaches the threshold it returns `bucket_boundaries[i]` for `i = 0` and
otherwise linearly interpolates between `bucket_boundaries[i-1]` and
`bucket_boundaries[i]`; if the loop exhausts the buckets it returns
`bucket_boundaries[-2]` (the source's defensive fallback, line 129).
Out-of-range indexing (impossible for the 13-bucket histograms the server
feeds in) yields `nan` where Python would raise. -/
def p99Go : List ℕ → ℚ → ℕ → ℚ → RFloat
  | [], _, _, _ => bucketBoundaries.getD (bucketBoundaries.length - 2) RFloat.nan
  | count :: rest, threshold, i, cumulative =>
    let cumulative2 := cumulative + (count : ℚ)
    if threshold ≤ cumulative2 then
      if i = 0 then bucketBoundaries.getD 0 RFloat.nan
      else
        let prev := cumulative2 - (count : ℚ)
        let ratio := (threshold - prev) / (count : ℚ)
        let lower := bucketBoundaries.getD (i - 1) RFloat.nan
        let upper := bucketBoundaries.getD i RFloat.nan
        raddF lower (rmulQ ratio (rsubF upper lower))
    else
      p99Go rest threshold (i + 1) cumulative2

/-- `calculate_p99_latency` (`app.py` lines 106-129): returns 0 for an empty
histogram, otherwise runs the cumulative loop against the threshold
`total * 0.99`. -/
def calculate_p99_latency (buckets : List ℕ) : RFloat :=
  let total := buckets.sum
  if total = 0 then RFloat.fin 0
  else p99Go buckets ((total : ℚ) * (99 / 100)) 0 0

/-- The `latencyAnalysis.sensorData` sub-object of a report
(`LatencyDistribution` in `app.py`); only the fields the aggregation code
reads are modelled.  `highPriorityAvg`/`highPriorityCount` are optional in the
source schema. -/
structure SensorData where
  buckets : List ℕ := []
  avg : ℚ := 0
  highPriorityAvg : Option ℚ := none
  highPriorityCount : Option ℕ := none
deriving DecidableEq, Repr

/-- The fields of a report's `stats` dictionary that the aggregation core
reads.  Missing optional values are `none`; `avgCompletedQPS` models the
chained lookup `stats.get('performanceMetrics', {}).get('avgCompletedQPS', 0)`
whose absent case is indistinguishable from 0; `sensorData = none` models a
`latencyAnalysis` with no `sensorData` key. -/
structure Stats where
  totalSent : ℤ := 0
  totalOps : ℤ := 0
  pending : ℤ := 0
  avgCompletedQPS : ℚ := 0
  totalAvgLatency : Option ℚ := none
  highPriorityAvgDelayLatency : Option ℚ := none
  sensorData : Option SensorData := none
deriving DecidableEq, Repr

/-- `calculate_data_loss_rate` (`app.py` lines 131-142). -/
def calculate_data_loss_rate (stats : Stats) : ℚ :=
  if stats.totalSent = 0 then 0
  else
    let lost : ℤ := stats.totalSent - stats.totalOps - stats.pending
    if 0 < lost then ((lost : ℚ) / (stats.totalSent : ℚ)) * 100 else 0

/-- The `sensor_buckets` extraction of `calculate_overall_metrics`
(`app.py` line 181): `latency_analysis.get('sensorData', {}).get('buckets', [])`. -/
def sensorBucketsOf (stats : Stats) : List ℕ :=
  match stats.sensorData with
  | some od => od.buckets
  | none => []

/-- The `avg_latency` fallback chain of `calculate_overall_metrics`
(`app.py` lines 147-163): prefer `totalAvgLatency`; otherwise use the
`sensorData` reported average when its histogram is non-empty, else 0. -/
def avgLatencyOf (stats : Stats) : ℚ :=
  match stats.totalAvgLatency with
  | some v => v
  | none =>
    match stats.sensorData with
    | some od => if 0 < od.buckets.sum then od.avg else 0
    | none => 0

/-- The `high_priority_latency` fallback chain of `calculate_overall_metrics`
(`app.py` lines 166-177); the Python truthiness test
`if op_data.get('highPriorityAvg') and op_data.get('highPriorityCount')`
treats a missing key, `None` and 0 alike. -/
def highPriorityLatencyOf (stats : Stats) : ℚ :=
  match stats.highPriorityAvgDelayLatency with
  | some v => v
  | none =>
    match stats.sensorData with
    | some od =>
      match od.highPriorityAvg, od.highPriorityCount with
      | some hpAvg, some hpCount => if hpAvg ≠ 0 ∧ hpCount ≠ 0 then hpAvg else 0
      | _, _ => 0
    | none => 0

/-- The metrics summary dictionary returned by `calculate_overall_metrics`. -/
structure Metrics where
  avg_latency : ℚ
  p99_latency : RFloat
  high_priority_latency : ℚ
  data_loss_rate : ℚ
deriving DecidableEq, Repr

/-- `calculate_overall_metrics` (`app.py` lines 144-189). -/
def calculate_overall_metrics (stats : Stats) : Metrics :=
  { avg_latency := avgLatencyOf stats
    p99_latency := calculate_p99_latency (sensorBucketsOf stats)
    high_priority_latency := highPriorityLatencyOf stats
    data_loss_rate := calculate_data_loss_rate stats }

/-- One archive record as read by the best-record scanner: the parsed
`timestamp` (`None` when missing or unparseable) and the `stats` payload.  A
file whose read or JSON parse raises is modelled as `none : Option RecordFile`
at the use sites. -/
structure RecordFile where
  timestamp : Option ℚ := none
  stats : Stats := {}
deriving DecidableEq, Repr

/-- The running reduction state of `calculate_best_records_batch`
(`app.py` lines 479-482): `best_qps = 0.0`, `best_qps_time = None`,
`best_latency = float('inf')`, `best_latency_time = None`. -/
structure BatchResult where
  best_qps : ℚ
  best_qps_time : Option ℚ
  best_latency : RFloat
  best_latency_time : Option ℚ
deriving DecidableEq, Repr

/-- Initial accumulator of the batch reduction. -/
def initBest : BatchResult := ⟨0, none, RFloat.inf, none⟩

/-- The per-record best-QPS update (`app.py` lines 499-502):
`if current_qps > best_qps: best_qps, best_qps_time := current_qps, timestamp`. -/
def qpsUpd (acc : ℚ × Option ℚ) (q : ℚ) (t : Option ℚ) : ℚ × Option ℚ :=
  if acc.1 < q then (q, t) else acc

/-- The per-record best-latency update (`app.py` lines 508-511):
`if current_latency > 0 and current_latency < best_latency: ...`. -/
def latUpd (acc : RFloat × Option ℚ) (lat : ℚ) (t : Option ℚ) : RFloat × Option ℚ :=
  if 0 < lat ∧ rltQ lat acc.1 then (RFloat.fin lat, t) else acc

/-- The best-QPS merge of two partial results (`app.py` lines 563-565):
`if batch_qps > best_qps: ...`. -/
def qpsMerge (acc b : ℚ × Option ℚ) : ℚ × Option ℚ :=
  if acc.1 < b.1 then b else acc

/-- The best-latency merge of two partial results (`app.py` lines 567-569):
`if batch_latency < best_latency and batch_latency != float('inf'): ...`. -/
def latMerge (acc b : RFloat × Option ℚ) : RFloat × Option ℚ :=
  if rltF b.1 acc.1 ∧ b.1 ≠ RFloat.inf then b else acc

/-- One iteration of the loop body of `calculate_best_records_batch`
(`app.py` lines 484-515): an unreadable record (`none`) is caught, logged and
skipped; a readable record updates best QPS from
`performanceMetrics.avgCompletedQPS` and best latency from the aggregated
`avg_latency`, both stamped with the record's timestamp. -/
def batchStep (acc : BatchResult) (rec : Option RecordFile) : BatchResult :=
  match rec with
  | none => acc
  | some r =>
    let q := qpsUpd (acc.best_qps, acc.best_qps_time) r.stats.avgCompletedQPS r.timestamp
    let lat := latUpd (acc.best_latency, acc.best_latency_time)
      (calculate_overall_metrics r.stats).avg_latency r.timestamp
    ⟨q.1, q.2, lat.1, lat.2⟩

/-- `calculate_best_records_batch` (`app.py` lines 477-517). -/
def calculate_best_records_batch (files : List (Option RecordFile)) : BatchResult :=
  files.foldl batchStep initBest

/-- Merge of one completed batch result into the running totals
(`app.py` lines 562-569). -/
def mergeStep (acc b : BatchResult) : BatchResult :=
  let q := qpsMerge (acc.best_qps, acc.best_qps_time) (b.best_qps, b.best_qps_time)
  let lat := latMerge (acc.best_latency, acc.best_latency_time)
    (b.best_latency, b.best_latency_time)
  ⟨q.1, q.2, lat.1, lat.2⟩

/-- Fold of `mergeStep` over batch results, starting from an arbitrary
accumulator (the worker-pool merge loop of `calculate_best_records`). -/
def scanBatches (a : BatchResult) (batches : List (List (Option RecordFile))) : BatchResult :=
  batches.foldl (fun acc b => mergeStep acc (calculate_best_records_batch b)) a

/-- The concurrent path of `calculate_best_records`: reduce every batch and
merge the batch results in the order the argument lists them (the source
merges in `as_completed` order, which is a permutation of the partition). -/
def mergeBatches (batches : List (List (Option RecordFile))) : BatchResult :=
  scanBatches initBest batches

/-- Fuel-indexed splitting of a list into consecutive chunks of size `n`;
the fuel (always instantiated with the list length) only makes the recursion
structural. -/
def chunkListAux (n : ℕ) : ℕ → List (Option RecordFile) → List (List (Option RecordFile))
  | _, [] => []
  | 0, _ :: _ => []
  | fuel + 1, x :: xs => ((x :: xs).take n) :: chunkListAux n fuel ((x :: xs).drop n)

/-- The batch partition of `calculate_best_records` (`app.py` line 553):
`[file_paths[i:i + BATCH_SIZE] for i in range(0, len(file_paths), BATCH_SIZE)]`. -/
def chunkList (n : ℕ) (l : List (Option RecordFile)) : List (List (Option RecordFile)) :=
  chunkListAux n l.length l

/-- `BATCH_SIZE` (`app.py` line 57). -/
def BATCH_SIZE : ℕ := 50

/-- `CACHE_EXPIRE_SECONDS` (`app.py` line 55). -/
def CACHE_EXPIRE_SECONDS : ℚ := 300

/-- The per-team cache entry (`TeamCache` dataclass, `app.py` lines 41-46).
Note that it stores no best-record values at all. -/
structure TeamCache where
  file_count : ℕ := 0
  last_scan_time : Option ℚ := none
  best_records_cached : Bool := false
  file_mtime_hash : String := ""
deriving DecidableEq, Repr

/-- The cache-hit condition evaluated at the top of `calculate_best_records`
(`app.py` lines 524-527): an entry exists, `best_records_cached` is set, a
scan time exists, and its age is below `CACHE_EXPIRE_SECONDS`.  No fingerprint
comparison takes place on this path. -/
def bestRecordsCacheHit (cache : Option TeamCache) (now : ℚ) : Bool :=
  match cache with
  | none => false
  | some ce =>
    ce.best_records_cached &&
      match ce.last_scan_time with
      | none => false
      | some ts => decide (now - ts < CACHE_EXPIRE_SECONDS)

/-- The best-record result returned to callers: absence of a best latency is
explicit (`None`), never an infinity sentinel. -/
structure BestRecords where
  best_qps : ℚ
  best_qps_time : Option ℚ
  best_latency : Option ℚ
  best_latency_time : Option ℚ
deriving DecidableEq, Repr

/-- Finite projection of an `RFloat` used when the final reduction value is
handed to callers. -/
def rfloatToOpt : RFloat → Option ℚ
  | .fin q => some q
  | _ => none

/-- The final normalisation of `calculate_best_records` (`app.py` lines
583-588): an infinite best latency (no positive latency was ever seen) is
replaced by explicit absence. -/
def finalizeBest (b : BatchResult) : BestRecords :=
  if b.best_latency = RFloat.inf then ⟨b.best_qps, b.best_qps_time, none, none⟩
  else ⟨b.best_qps, b.best_qps_time, rfloatToOpt b.best_latency, b.best_latency_time⟩

/-- Observable outcome of one `calculate_best_records` call: the returned
values, the value of the cache-hit condition the source evaluated, and
whether the archive was (re)scanned during the call. -/
structure BestCall where
  result : BestRecords
  cache_hit : Bool
  scanned : Bool
deriving DecidableEq, Repr

/-- `calculate_best_records` (`app.py` lines 519-588) for one team, as a
function of the team's cache entry, the current time, the archive listing
(`files`, most recent first, unreadable records as `none`) and — for archives
above `BATCH_SIZE` — the batch results in worker-pool completion order
(`completed`, a permutation of `chunkList BATCH_SIZE files`).  The source
evaluates the cache-hit condition but its hit branch only logs (line 529:
the comment says the cached values should be returned here, yet the code
recomputes), so every call proceeds to list and scan the archive. -/
def calculate_best_records (cache : Option TeamCache) (now : ℚ)
    (files : List (Option RecordFile))
    (completed : List (List (Option RecordFile))) : BestCall :=
  let hit := bestRecordsCacheHit cache now
  if files.isEmpty then
    { result := ⟨0, none, none, none⟩, cache_hit := hit, scanned := true }
  else if files.length ≤ BATCH_SIZE then
    { result := finalizeBest (calculate_best_records_batch files)
      cache_hit := hit, scanned := true }
  else
    { result := finalizeBest (mergeBatches completed)
      cache_hit := hit, scanned := true }

/-- `get_file_mtime_hash` (`app.py` lines 226-245) over the successfully
stat-ed `(basename, mtime-rendered-as-string)` pairs of a team directory:
empty directory gives `""`, otherwise the `name:mtime` entries are sorted and
joined with `"|"`.  The digest is modelled as that joined string itself; the
source applies the deterministic `str(hash(·))` to it, which preserves
equality of digests. -/
def get_file_mtime_hash (files : List (String × String)) : String :=
  if files.isEmpty then ""
  else String.intercalate "|"
    (List.insertionSort (fun a b : String => a ≤ b) (files.map fun p => p.1 ++ ":" ++ p.2))

/-- The readable records of an archive listing. -/
def readables (l : List (Option RecordFile)) : List RecordFile :=
  l.filterMap id

/-- The completed-QPS figure the scanner reads from a record. -/
def recQps (r : RecordFile) : ℚ :=
  r.stats.avgCompletedQPS

/-- The computed average latency the scanner reads from a record. -/
def recLat (r : RecordFile) : ℚ :=
  (calculate_overall_metrics r.stats).avg_latency

/-- Value-level combination performed by `latMerge` (used to reason about the
merge fold componentwise). -/
def latComb (m x : RFloat) : RFloat :=
  if rltF x m ∧ x ≠ RFloat.inf then x else m

/-- Strict lower-bound predicate on the latency accumulator: the accumulator
is still the infinity sentinel or a finite value strictly above `c`. -/
def latAbove (c : ℚ) : RFloat → Prop
  | .nan => False
  | .inf => True
  | .fin q => c < q

theorem fin_eq_inf_iff (q : ℚ) : (RFloat.fin q = RFloat.inf) = False := by
  simp

theorem rltQ_nan (q : ℚ) : rltQ q RFloat.nan = false := rfl

theorem rltQ_inf (q : ℚ) : rltQ q RFloat.inf = true := rfl

theorem rltQ_fin (q b : ℚ) : rltQ q (RFloat.fin b) = decide (q < b) := rfl

theorem rltF_fin_fin (a b : ℚ) : rltF (RFloat.fin a) (RFloat.fin b) = decide (a < b) := rfl

theorem rltF_fin_inf (a : ℚ) : rltF (RFloat.fin a) RFloat.inf = true := rfl

theorem rltF_fin_nan (a : ℚ) : rltF (RFloat.fin a) RFloat.nan = false := rfl

theorem rltF_inf_left (x : RFloat) : rltF RFloat.inf x = false := rfl

theorem rltF_nan_left (x : RFloat) : rltF RFloat.nan x = false := rfl

theorem nan_eq_inf_iff : (RFloat.nan = RFloat.inf) = False := by
  simp

theorem inf_eq_inf_iff : (RFloat.inf = RFloat.inf) = True := by
  simp

theorem qpsUpd_fst (acc : ℚ × Option ℚ) (q : ℚ) (t : Option ℚ) :
    (qpsUpd acc q t).1 = max acc.1 q := by
  unfold qpsUpd
  split_ifs with h
  · exact (max_eq_right h.le).symm
  · exact (max_eq_left (not_lt.mp h)).symm

theorem mergeStep_qps (a b : BatchResult) :
    (mergeStep a b).best_qps = max a.best_qps b.best_qps := by
  simp only [mergeStep, qpsMerge]
  split_ifs with h
  · exact (max_eq_right h.le).symm
  · exact (max_eq_left (not_lt.mp h)).symm

theorem mergeStep_lat (a b : BatchResult) :
    (mergeStep a b).best_latency = latComb a.best_latency b.best_latency := by
  simp only [mergeStep, latMerge, latComb]
  split_ifs <;> rfl

theorem batchStep_qps_nonneg (a : BatchResult) (r : Option RecordFile) (h : 0 ≤ a.best_qps) :
    0 ≤ (batchStep a r).best_qps := by
  cases r with
  | none => exact h
  | some rec =>
    simp only [batchStep, qpsUpd_fst]
    exact le_max_of_le_left h

theorem foldl_batchStep_qps_nonneg (l : List (Option RecordFile)) :
    ∀ a : BatchResult, 0 ≤ a.best_qps → 0 ≤ (l.foldl batchStep a).best_qps := by
  induction l with
  | nil => intro a h; exact h
  | cons r l ih => intro a h; exact ih _ (batchStep_qps_nonneg a r h)

theorem batch_qps_nonneg (l : List (Option RecordFile)) :
    0 ≤ (calculate_best_records_batch l).best_qps :=
  foldl_batchStep_qps_nonneg l initBest le_rfl

theorem mergeStep_qps_nonneg (a b : BatchResult) (ha : 0 ≤ a.best_qps) :
    0 ≤ (mergeStep a b).best_qps := by
  rw [mergeStep_qps]
  exact le_max_of_le_left ha

theorem qpsUpd_merge_assoc (a x : ℚ × Option ℚ) (q : ℚ) (t : Option ℚ) (h : 0 ≤ a.1) :
    qpsMerge (qpsUpd a q t) x = qpsMerge a (qpsMerge (qpsUpd (0, none) q t) x) := by
  rcases a with ⟨a1, a2⟩
  rcases x with ⟨x1, x2⟩
  simp only [qpsUpd, qpsMerge] at *
  dsimp only
  split_ifs <;> first | rfl | (exfalso; linarith) | (exfalso; simp_all <;> linarith)

theorem latUpd_merge_assoc (a x : RFloat × Option ℚ) (lat : ℚ) (t : Option ℚ) :
    latMerge (latUpd a lat t) x = latMerge a (latMerge (latUpd (RFloat.inf, none) lat t) x) := by
  rcases a with ⟨a1, a2⟩
  rcases x with ⟨x1, x2⟩
  rcases a1 with _ | _ | aq <;> rcases x1 with _ | _ | xq <;>
    simp only [latUpd, latMerge, rltQ_nan, rltQ_inf, rltQ_fin, rltF_fin_fin, rltF_fin_inf,
      rltF_fin_nan, rltF_inf_left, rltF_nan_left, ne_eq, decide_eq_true_eq, Bool.false_eq_true,
      eq_self_iff_true, fin_eq_inf_iff, nan_eq_inf_iff, inf_eq_inf_iff, and_true, and_false,
      true_and, false_and, not_false_eq_true, not_true_eq_false, if_true, if_false] <;>
    split_ifs <;>
    (try simp_all only [rltQ_nan, rltQ_inf, rltQ_fin, rltF_fin_fin, rltF_fin_inf, rltF_fin_nan,
      rltF_inf_left, rltF_nan_left, ne_eq, decide_eq_true_eq, Bool.false_eq_true,
      eq_self_iff_true, fin_eq_inf_iff, nan_eq_inf_iff, inf_eq_inf_iff, and_true, and_false,
      true_and, false_and, not_false_eq_true, not_true_eq_false, if_true, if_false]) <;>
    first | rfl | (exfalso; linarith) | (congr 1 <;> linarith)

theorem mergeStep_initBest (a : BatchResult) (h : 0 ≤ a.best_qps) :
    mergeStep a initBest = a := by
  rcases a with ⟨q, qt, l, lt'⟩
  simp only [mergeStep, initBest, qpsMerge, latMerge, rltF, ne_eq]
  rw [if_neg (not_lt.mpr h), if_neg (by simp)]

theorem mergeStep_batchStep_assoc (a x : BatchResult) (r : RecordFile) (h : 0 ≤ a.best_qps) :
    mergeStep (batchStep a (some r)) x =
      mergeStep a (mergeStep (batchStep initBest (some r)) x) := by
  rcases a with ⟨aq, aqt, al, alt⟩
  rcases x with ⟨xq, xqt, xl, xlt⟩
  have h1 := qpsUpd_merge_assoc (aq, aqt) (xq, xqt) r.stats.avgCompletedQPS r.timestamp h
  have h2 := latUpd_merge_assoc (al, alt) (xl, xlt)
    (calculate_overall_metrics r.stats).avg_latency r.timestamp
  simp only [batchStep, mergeStep, initBest, Prod.mk.eta]
  rw [h1, h2]

theorem foldl_batchStep_hom (l : List (Option RecordFile)) :
    ∀ a : BatchResult, 0 ≤ a.best_qps →
      l.foldl batchStep a = mergeStep a (calculate_best_records_batch l) := by
  induction l with
  | nil => intro a h; exact (mergeStep_initBest a h).symm
  | cons r l ih =>
    intro a h
    cases r with
    | none =>
      have hb : calculate_best_records_batch (none :: l) = calculate_best_records_batch l := rfl
      rw [List.foldl_cons, hb]
      exact ih a h
    | some rec =>
      rw [List.foldl_cons, ih _ (batchStep_qps_nonneg a (some rec) h)]
      have hb : calculate_best_records_batch (some rec :: l) =
          mergeStep (batchStep initBest (some rec)) (calculate_best_records_batch l) := by
        show (some rec :: l).foldl batchStep initBest = _
        rw [List.foldl_cons]
        exact ih _ (batchStep_qps_nonneg initBest (some rec) le_rfl)
      rw [hb]
      exact mergeStep_batchStep_assoc a (calculate_best_records_batch l) rec h

theorem scanBatches_eq_foldl_flatten (bs : List (List (Option RecordFile))) :
    ∀ a : BatchResult, 0 ≤ a.best_qps → scanBatches a bs = bs.flatten.foldl batchStep a := by
  induction bs with
  | nil => intro a _; rfl
  | cons b bs ih =>
    intro a h
    show scanBatches (mergeStep a (calculate_best_records_batch b)) bs = _
    rw [ih _ (mergeStep_qps_nonneg _ _ h), ← foldl_batchStep_hom b a h, List.flatten_cons,
      List.foldl_append]

theorem chunkListAux_flatten (n : ℕ) (hn : n ≠ 0) :
    ∀ (fuel : ℕ) (l : List (Option RecordFile)), l.length ≤ fuel →
      (chunkListAux n fuel l).flatten = l := by
  intro fuel
  induction fuel with
  | zero =>
    intro l hl
    have hnil : l = [] := List.length_eq_zero.mp (Nat.le_zero.mp hl)
    subst hnil
    rfl
  | succ fuel ih =>
    intro l hl
    cases l with
    | nil => rfl
    | cons x xs =>
      have hn1 : 1 ≤ n := Nat.one_le_iff_ne_zero.mpr hn
      have hlen : ((x :: xs).drop n).length ≤ fuel := by
        simp only [List.length_drop, List.length_cons]
        simp only [List.length_cons] at hl
        omega
      show (((x :: xs).take n) :: chunkListAux n fuel ((x :: xs).drop n)).flatten = x :: xs
      rw [List.flatten_cons, ih _ hlen, List.take_append_drop]

theorem chunkList_flatten (n : ℕ) (hn : n ≠ 0) (l : List (Option RecordFile)) :
    (chunkList n l).flatten = l :=
  chunkListAux_flatten n hn l.length l le_rfl

theorem mergeBatches_chunkList (n : ℕ) (hn : n ≠ 0) (files : List (Option RecordFile)) :
    mergeBatches (chunkList n files) = calculate_best_records_batch files := by
  unfold mergeBatches
  rw [scanBatches_eq_foldl_flatten _ initBest le_rfl, chunkList_flatten n hn]
  rfl

theorem foldl_perm_of_rcomm {α β : Type} {f : β → α → β}
    (hf : ∀ b a₁ a₂, f (f b a₁) a₂ = f (f b a₂) a₁) :
    ∀ {l₁ l₂ : List α}, l₁.Perm l₂ → ∀ b, l₁.foldl f b = l₂.foldl f b := by
  intro l₁ l₂ h
  induction h with
  | nil => intro b; rfl
  | cons x _ ih => intro b; simp only [List.foldl_cons]; exact ih _
  | swap x y l => intro b; simp only [List.foldl_cons]; rw [hf]
  | trans _ _ ih₁ ih₂ => intro b; rw [ih₁, ih₂]

theorem scanBatches_qps_proj (bs : List (List (Option RecordFile))) :
    ∀ a : BatchResult, (scanBatches a bs).best_qps =
      bs.foldl (fun m b => max m (calculate_best_records_batch b).best_qps) a.best_qps := by
  induction bs with
  | nil => intro a; rfl
  | cons b bs ih =>
    intro a
    show (scanBatches (mergeStep a (calculate_best_records_batch b)) bs).best_qps = _
    rw [ih, mergeStep_qps, List.foldl_cons]

theorem scanBatches_lat_proj (bs : List (List (Option RecordFile))) :
    ∀ a : BatchResult, (scanBatches a bs).best_latency =
      bs.foldl (fun m b => latComb m (calculate_best_records_batch b).best_latency)
        a.best_latency := by
  induction bs with
  | nil => intro a; rfl
  | cons b bs ih =>
    intro a
    show (scanBatches (mergeStep a (calculate_best_records_batch b)) bs).best_latency = _
    rw [ih, mergeStep_lat, List.foldl_cons]

theorem max_rcomm (m a b : ℚ) : max (max m a) b = max (max m b) a := by
  rw [max_assoc, max_assoc, max_comm a b]

theorem latComb_rcomm (m x y : RFloat) :
    latComb (latComb m x) y = latComb (latComb m y) x := by
  rcases m with _ | _ | mq <;> rcases x with _ | _ | xq <;> rcases y with _ | _ | yq <;>
    simp only [latComb, rltF_fin_fin, rltF_fin_inf, rltF_fin_nan, rltF_inf_left, rltF_nan_left,
      ne_eq, decide_eq_true_eq, Bool.false_eq_true, eq_self_iff_true, fin_eq_inf_iff,
      nan_eq_inf_iff, inf_eq_inf_iff, and_true, and_false, true_and, false_and,
      not_false_eq_true, not_true_eq_false, if_true, if_false] <;>
    split_ifs <;>
    (try simp_all only [rltF_fin_fin, rltF_fin_inf, rltF_fin_nan, rltF_inf_left, rltF_nan_left,
      ne_eq, decide_eq_true_eq, Bool.false_eq_true, eq_self_iff_true, fin_eq_inf_iff,
      nan_eq_inf_iff, inf_eq_inf_iff, and_true, and_false, true_and, false_and,
      not_false_eq_true, not_true_eq_false, if_true, if_false]) <;>
    first
      | rfl
      | (exfalso; linarith)
      | (congr 1 <;> linarith)

/-- C2, counterexample.  For buckets `[100,200,150,80,50,20,10,5,2,1,0,0,0]`
the total is 618 and the 99% threshold 611.82 is first crossed at bucket
index 7 (cumulative 615), so the estimator interpolates between
`boundaries[6] = 100` and `boundaries[7] = 200` and returns 136.4 — which is
not strictly between `boundaries[9] = 1000` and `boundaries[10] = 2000` as
the claim states. -/
theorem p99_example_not_between_1000_and_2000 :
    calculate_p99_latency [100, 200, 150, 80, 50, 20, 10, 5, 2, 1, 0, 0, 0] =
      RFloat.fin (682 / 5) ∧
    (682 : ℚ) / 5 < 1000 := by
  constructor
  · norm_num [calculate_p99_latency, p99Go, bucketBoundaries, raddF, rmulQ, rsubF]
  · norm_num

/-- C2, amended.  For buckets `[100,200,150,80,50,20,10,5,2,1,0,0,0]` the
percentile estimator at quantile 0.99 returns the linear interpolation
between `boundaries[6] = 100` and `boundaries[7] = 200` over the cumulative
counts, namely exactly 682/5 = 136.4, which lies strictly between 100
and 200. -/
theorem p99_example_interpolated_value :
    calculate_p99_latency [100, 200, 150, 80, 50, 20, 10, 5, 2, 1, 0, 0, 0] =
      RFloat.fin (682 / 5) ∧
    (100 : ℚ) < 682 / 5 ∧ (682 : ℚ) / 5 < 200 := by
  refine ⟨?_, by norm_num, by norm_num⟩
  norm_num [calculate_p99_latency, p99Go, bucketBoundaries, raddF, rmulQ, rsubF]

/-- C5.  `dataLossRate` is 0 when `totalSent = 0`; otherwise, with
`lost = totalSent - totalCompleted - pending`, it equals `lost/totalSent*100`
when `lost > 0` and exactly 0 when `lost ≤ 0`; in particular the report
(1000, 980, 15) yields 0.5 and the report (1000, 1000, 0) yields 0. -/
theorem data_loss_rate_spec (s : Stats) :
    (s.totalSent = 0 → calculate_data_loss_rate s = 0) ∧
    (0 < s.totalSent - s.totalOps - s.pending → s.totalSent ≠ 0 →
      calculate_data_loss_rate s =
        ((s.totalSent - s.totalOps - s.pending : ℤ) : ℚ) / (s.totalSent : ℚ) * 100) ∧
    (s.totalSent - s.totalOps - s.pending ≤ 0 → calculate_data_loss_rate s = 0) ∧
    calculate_data_loss_rate { totalSent := 1000, totalOps := 980, pending := 15 } = 1 / 2 ∧
    calculate_data_loss_rate { totalSent := 1000, totalOps := 1000, pending := 0 } = 0 := by
  refine ⟨fun h => ?_, fun h hne => ?_, fun h => ?_, ?_, ?_⟩
  · simp [calculate_data_loss_rate, h]
  · simp only [calculate_data_loss_rate]
    rw [if_neg hne, if_pos h]
  · simp only [calculate_data_loss_rate]
    by_cases h0 : s.totalSent = 0
    · simp [h0]
    · rw [if_neg h0, if_neg (by omega)]
  · norm_num [calculate_data_loss_rate]
  · norm_num [calculate_data_loss_rate]

/-- C5, witness: the loss-rate formula instantiated at the concrete report
(totalSent 1000, totalCompleted 980, pending 15). -/
theorem data_loss_rate_spec_witness :
    calculate_data_loss_rate { totalSent := 1000, totalOps := 980, pending := 15 } =
      ((1000 - 980 - 15 : ℤ) : ℚ) / ((1000 : ℤ) : ℚ) * 100 :=
  (data_loss_rate_spec { totalSent := 1000, totalOps := 980, pending := 15 }).2.1
    (by decide) (by decide)

/-- C7.  An unreadable or unparseable record never aborts a batch scan: the
reduction over a listing containing one unreadable record equals the
reduction over the listing with that record removed, and no failure escapes
(the function is total). -/
theorem unreadable_record_skipped (l₁ l₂ : List (Option RecordFile)) :
    calculate_best_records_batch (l₁ ++ none :: l₂) =
      calculate_best_records_batch (l₁ ++ l₂) := by
  simp only [calculate_best_records_batch, List.foldl_append, List.foldl_cons]
  rfl

/-- C9.  When the cumulative loop of `calculate_p99_latency` exhausts the
buckets without the cumulative count reaching the threshold, it returns
`bucket_boundaries[-2]`, the second-to-last entry of the boundary sequence
and its last finite value, namely 5000 (and never the infinite final
boundary). -/
theorem p99_fallback_second_to_last_boundary (threshold : ℚ) (i : ℕ) (cumulative : ℚ) :
    p99Go [] threshold i cumulative =
      bucketBoundaries.getD (bucketBoundaries.length - 2) RFloat.nan ∧
    bucketBoundaries.getD (bucketBoundaries.length - 2) RFloat.nan = RFloat.fin 5000 ∧
    RFloat.fin 5000 ≠ RFloat.inf :=
  ⟨rfl, rfl, by decide⟩

/-- C8.  The archive fingerprint is order-independent: permuting the
enumeration order of the `(filename, mtime)` pairs never changes the digest,
because the entries are sorted before joining and hashing. -/
theorem mtime_hash_order_independent (f₁ f₂ : List (String × String)) (h : f₁.Perm f₂) :
    get_file_mtime_hash f₁ = get_file_mtime_hash f₂ := by
  haveI : IsTotal String (fun a b : String => a ≤ b) := ⟨fun a b => le_total a b⟩
  haveI : IsTrans String (fun a b : String => a ≤ b) := ⟨fun _ _ _ => le_trans⟩
  haveI : IsAntisymm String (fun a b : String => a ≤ b) := ⟨fun _ _ => le_antisymm⟩
  have hm : (f₁.map fun p => p.1 ++ ":" ++ p.2).Perm (f₂.map fun p => p.1 ++ ":" ++ p.2) :=
    h.map _
  have hsort :
      List.insertionSort (fun a b : String => a ≤ b) (f₁.map fun p => p.1 ++ ":" ++ p.2) =
        List.insertionSort (fun a b : String => a ≤ b) (f₂.map fun p => p.1 ++ ":" ++ p.2) :=
    List.eq_of_perm_of_sorted
      (((List.perm_insertionSort _ _).trans hm).trans (List.perm_insertionSort _ _).symm)
      (List.sorted_insertionSort _ _) (List.sorted_insertionSort _ _)
  have hlen := h.length_eq
  by_cases he : f₁.isEmpty = true
  · have he2 : f₂.isEmpty = true := by
      rw [List.isEmpty_iff_length_eq_zero] at he ⊢
      omega
    rw [get_file_mtime_hash, get_file_mtime_hash, if_pos he, if_pos he2]
  · have he2 : ¬f₂.isEmpty = true := by
      rw [List.isEmpty_iff_length_eq_zero] at he ⊢
      omega
    rw [get_file_mtime_hash, get_file_mtime_hash, if_neg he, if_neg he2, hsort]

/-- C8, witness: two enumeration orders of the same two files produce the
same digest. -/
theorem mtime_hash_order_independent_witness :
    get_file_mtime_hash [("b.json", "2"), ("a.json", "1")] =
      get_file_mtime_hash [("a.json", "1"), ("b.json", "2")] :=
  mtime_hash_order_independent _ _ (List.Perm.swap _ _ _)

/-- C3, counterexample.  Two records with equal `completedQPS` 5 but different
timestamps, split into singleton batches: merging the batch results in the two
possible completion orders yields different `bestQpsAt` tie-break timestamps
(the strict `>` merge keeps whichever completed first), so the merged result is
not independent of the order in which batch results are merged. -/
theorem merge_order_changes_tiebreak_time :
    [[some ({ timestamp := some 2, stats := { avgCompletedQPS := 5 } } : RecordFile)],
     [some ({ timestamp := some 1, stats := { avgCompletedQPS := 5 } } : RecordFile)]].Perm
      (chunkList 1
        [some ({ timestamp := some 1, stats := { avgCompletedQPS := 5 } } : RecordFile),
         some ({ timestamp := some 2, stats := { avgCompletedQPS := 5 } } : RecordFile)]) ∧
    mergeBatches
        [[some ({ timestamp := some 2, stats := { avgCompletedQPS := 5 } } : RecordFile)],
         [some ({ timestamp := some 1, stats := { avgCompletedQPS := 5 } } : RecordFile)]] ≠
      mergeBatches
        (chunkList 1
          [some ({ timestamp := some 1, stats := { avgCompletedQPS := 5 } } : RecordFile),
           some ({ timestamp := some 2, stats := { avgCompletedQPS := 5 } } : RecordFile)]) := by
  constructor
  · exact List.Perm.swap _ _ _
  · intro h
    have h2 := congrArg BatchResult.best_qps_time h
    norm_num [mergeBatches, scanBatches, chunkList, chunkListAux, calculate_best_records_batch,
      batchStep, qpsUpd, latUpd, qpsMerge, latMerge, mergeStep, initBest, rltQ_nan, rltQ_inf,
      rltQ_fin, rltF_inf_left, calculate_overall_metrics, avgLatencyOf, sensorBucketsOf,
      highPriorityLatencyOf, calculate_data_loss_rate, calculate_p99_latency, recQps,
      List.foldl_cons, List.foldl_nil] at h2

/-- C3, amended.  For every fixed archive listing, partitioning into batches
of any size and merging in partition order reproduces the sequential
reduction exactly (all four fields, tie-break timestamps included), and the
numeric best values `bestQps`/`bestLatency` are furthermore independent of
the completion order in which batch results are merged; only the tie-break
timestamps can depend on the merge order when distinct batches tie. -/
theorem merge_batchsize_and_order_independence
    (n : ℕ) (files : List (Option RecordFile)) (bs : List (List (Option RecordFile)))
    (hn : n ≠ 0) (hperm : bs.Perm (chunkList n files)) :
    mergeBatches (chunkList n files) = calculate_best_records_batch files ∧
    (mergeBatches bs).best_qps = (calculate_best_records_batch files).best_qps ∧
    (mergeBatches bs).best_latency = (calculate_best_records_batch files).best_latency := by
  have h1 := mergeBatches_chunkList n hn files
  refine ⟨h1, ?_, ?_⟩
  · have e1 := scanBatches_qps_proj bs initBest
    have e2 := scanBatches_qps_proj (chunkList n files) initBest
    have hp := foldl_perm_of_rcomm
      (f := fun m b => max m (calculate_best_records_batch b).best_qps)
      (fun m b₁ b₂ => max_rcomm m _ _) hperm initBest.best_qps
    show (scanBatches initBest bs).best_qps = _
    rw [e1, hp, ← e2]
    show (mergeBatches (chunkList n files)).best_qps = _
    rw [h1]
  · have e1 := scanBatches_lat_proj bs initBest
    have e2 := scanBatches_lat_proj (chunkList n files) initBest
    have hp := foldl_perm_of_rcomm
      (f := fun m b => latComb m (calculate_best_records_batch b).best_latency)
      (fun m b₁ b₂ => latComb_rcomm m _ _) hperm initBest.best_latency
    show (scanBatches initBest bs).best_latency = _
    rw [e1, hp, ← e2]
    show (mergeBatches (chunkList n files)).best_latency = _
    rw [h1]

/-- C3, witness: the batch-size independence instantiated at a concrete
one-record archive with batch size 1. -/
theorem merge_batchsize_and_order_independence_witness :
    mergeBatches (chunkList 1
        [some ({ timestamp := some 1, stats := { avgCompletedQPS := 5 } } : RecordFile)]) =
      calculate_best_records_batch
        [some ({ timestamp := some 1, stats := { avgCompletedQPS := 5 } } : RecordFile)] :=
  (merge_batchsize_and_order_independence 1
    [some ({ timestamp := some 1, stats := { avgCompletedQPS := 5 } } : RecordFile)]
    (chunkList 1 [some ({ timestamp := some 1, stats := { avgCompletedQPS := 5 } } : RecordFile)])
    (by decide) (List.Perm.refl _)).1

/-- C1.  The cache is consulted but can never serve a result: the returned
best-record values are identical whatever the cache contents (in particular
on a valid warm hit), and every call — including a second call with no new
submissions, whose result is therefore identical — rescans the archive.  The
final conjunct exhibits a concrete warm cache entry (scanned 10 seconds ago,
`best_records_cached` set) on which the hit condition is true. -/
theorem best_records_cache_never_served :
    (∀ (cache : Option TeamCache) (now : ℚ) (files : List (Option RecordFile))
        (completed : List (List (Option RecordFile))),
      (calculate_best_records cache now files completed).scanned = true ∧
      (calculate_best_records cache now files completed).result =
        (calculate_best_records none now files completed).result) ∧
    bestRecordsCacheHit
      (some { file_count := 3, last_scan_time := some 100, best_records_cached := true,
              file_mtime_hash := "h" }) 110 = true := by
  refine ⟨fun cache now files completed => ⟨?_, ?_⟩, ?_⟩
  · unfold calculate_best_records
    split_ifs <;> rfl
  · unfold calculate_best_records
    split_ifs <;> rfl
  · norm_num [bestRecordsCacheHit, CACHE_EXPIRE_SECONDS, Bool.true_and]

theorem readables_cons_some (r : RecordFile) (l : List (Option RecordFile)) :
    readables (some r :: l) = r :: readables l := rfl

theorem batchStep_some_qps (a : BatchResult) (r : RecordFile) :
    (batchStep a (some r)).best_qps = max a.best_qps (recQps r) := by
  simp only [batchStep, qpsUpd_fst]
  rfl

theorem foldl_batchStep_qps_val (l : List (Option RecordFile)) :
    ∀ a : BatchResult, (l.foldl batchStep a).best_qps =
      (readables l).foldl (fun m r => max m (recQps r)) a.best_qps := by
  induction l with
  | nil => intro a; rfl
  | cons r l ih =>
    intro a
    cases r with
    | none => rw [List.foldl_cons]; exact ih a
    | some rec =>
      rw [List.foldl_cons, ih, readables_cons_some, List.foldl_cons, batchStep_some_qps]

theorem batchStep_some_qps_update (a : BatchResult) (r : RecordFile)
    (h : a.best_qps < recQps r) :
    (batchStep a (some r)).best_qps = recQps r ∧
    (batchStep a (some r)).best_qps_time = r.timestamp := by
  simp only [recQps] at h
  simp only [batchStep, qpsUpd]
  rw [if_pos h]
  exact ⟨rfl, rfl⟩

theorem batchStep_some_qps_keep (a : BatchResult) (r : RecordFile)
    (h : ¬a.best_qps < recQps r) :
    (batchStep a (some r)).best_qps = a.best_qps ∧
    (batchStep a (some r)).best_qps_time = a.best_qps_time := by
  simp only [recQps] at h
  simp only [batchStep, qpsUpd]
  rw [if_neg h]
  exact ⟨rfl, rfl⟩

theorem foldl_batchStep_qps_keep (l : List (Option RecordFile)) :
    ∀ a : BatchResult, (∀ r ∈ readables l, recQps r ≤ a.best_qps) →
      (l.foldl batchStep a).best_qps = a.best_qps ∧
      (l.foldl batchStep a).best_qps_time = a.best_qps_time := by
  induction l with
  | nil => intro a _; exact ⟨rfl, rfl⟩
  | cons r l ih =>
    intro a h
    cases r with
    | none => exact ih a h
    | some rec =>
      have hrec : recQps rec ≤ a.best_qps := by
        apply h
        rw [readables_cons_some]
        exact List.mem_cons_self _ _
      have hk := batchStep_some_qps_keep a rec (not_lt.mpr hrec)
      rw [List.foldl_cons]
      have hrest := ih (batchStep a (some rec)) (fun r' hr' => by
        rw [hk.1]
        apply h
        rw [readables_cons_some]
        exact List.mem_cons_of_mem _ hr')
      rw [hrest.1, hrest.2, hk.1, hk.2]
      exact ⟨rfl, rfl⟩

theorem foldl_max_lt (xs : List RecordFile) :
    ∀ (b c : ℚ), b < c → (∀ r ∈ xs, recQps r < c) →
      xs.foldl (fun m r => max m (recQps r)) b < c := by
  induction xs with
  | nil => intro b c hb _; exact hb
  | cons x xs ih =>
    intro b c hb h
    rw [List.foldl_cons]
    exact ih _ _ (max_lt hb (h x (List.mem_cons_self _ _)))
      (fun r hr => h r (List.mem_cons_of_mem _ hr))

theorem batch_qps_first_max (l₁ l₂ : List (Option RecordFile)) (r : RecordFile)
    (hpos : 0 < recQps r)
    (h₁ : ∀ x ∈ readables l₁, recQps x < recQps r)
    (h₂ : ∀ x ∈ readables l₂, recQps x ≤ recQps r) :
    (calculate_best_records_batch (l₁ ++ some r :: l₂)).best_qps = recQps r ∧
    (calculate_best_records_batch (l₁ ++ some r :: l₂)).best_qps_time = r.timestamp := by
  unfold calculate_best_records_batch
  rw [List.foldl_append, List.foldl_cons]
  have hAq : (l₁.foldl batchStep initBest).best_qps < recQps r := by
    rw [foldl_batchStep_qps_val]
    exact foldl_max_lt _ _ _ hpos h₁
  have hupd := batchStep_some_qps_update _ r hAq
  have hkeep := foldl_batchStep_qps_keep l₂ (batchStep (l₁.foldl batchStep initBest) (some r))
    (fun x hx => by rw [hupd.1]; exact h₂ x hx)
  rw [hkeep.1, hkeep.2, hupd.1, hupd.2]
  exact ⟨rfl, rfl⟩

theorem foldl_batchStep_latAbove (l : List (Option RecordFile)) :
    ∀ (a : BatchResult) (c : ℚ), latAbove c a.best_latency →
      (∀ x ∈ readables l, 0 < recLat x → c < recLat x) →
      latAbove c (l.foldl batchStep a).best_latency := by
  induction l with
  | nil => intro a c h _; exact h
  | cons r l ih =>
    intro a c h hl
    cases r with
    | none => exact ih a c h hl
    | some rec =>
      rw [List.foldl_cons]
      refine ih _ c ?_ (fun x hx h0 => hl x (by rw [readables_cons_some]; exact List.mem_cons_of_mem _ hx) h0)
      simp only [batchStep, latUpd]
      split_ifs with hcond
      · exact hl rec (by rw [readables_cons_some]; exact List.mem_cons_self _ _) hcond.1
      · exact h

theorem batchStep_some_lat_keep (a : BatchResult) (r : RecordFile)
    (h : ¬(0 < recLat r ∧ rltQ (recLat r) a.best_latency = true)) :
    (batchStep a (some r)).best_latency = a.best_latency ∧
    (batchStep a (some r)).best_latency_time = a.best_latency_time := by
  simp only [recLat] at h
  simp only [batchStep, latUpd]
  rw [if_neg h]
  exact ⟨rfl, rfl⟩

theorem foldl_batchStep_lat_keep (l : List (Option RecordFile)) :
    ∀ (a : BatchResult) (c : ℚ), a.best_latency = RFloat.fin c →
      (∀ x ∈ readables l, 0 < recLat x → c ≤ recLat x) →
      (l.foldl batchStep a).best_latency = RFloat.fin c ∧
      (l.foldl batchStep a).best_latency_time = a.best_latency_time := by
  induction l with
  | nil => intro a c h _; exact ⟨h, rfl⟩
  | cons r l ih =>
    intro a c h hl
    cases r with
    | none => exact ih a c h hl
    | some rec =>
      have hk := batchStep_some_lat_keep a rec (by
        rintro ⟨h0, hlt⟩
        rw [h, rltQ_fin, decide_eq_true_eq] at hlt
        have := hl rec (by rw [readables_cons_some]; exact List.mem_cons_self _ _) h0
        linarith)
      rw [List.foldl_cons]
      have hrest := ih (batchStep a (some rec)) c (by rw [hk.1, h])
        (fun x hx h0 => hl x (by rw [readables_cons_some]; exact List.mem_cons_of_mem _ hx) h0)
      exact ⟨hrest.1, by rw [hrest.2, hk.2]⟩

theorem batch_lat_first_min (l₁ l₂ : List (Option RecordFile)) (r : RecordFile)
    (hpos : 0 < recLat r)
    (h₁ : ∀ x ∈ readables l₁, 0 < recLat x → recLat r < recLat x)
    (h₂ : ∀ x ∈ readables l₂, 0 < recLat x → recLat r ≤ recLat x) :
    (calculate_best_records_batch (l₁ ++ some r :: l₂)).best_latency = RFloat.fin (recLat r) ∧
    (calculate_best_records_batch (l₁ ++ some r :: l₂)).best_latency_time = r.timestamp := by
  unfold calculate_best_records_batch
  rw [List.foldl_append, List.foldl_cons]
  have hAlat : latAbove (recLat r) (l₁.foldl batchStep initBest).best_latency :=
    foldl_batchStep_latAbove l₁ initBest (recLat r) trivial h₁
  have hcond : 0 < recLat r ∧ rltQ (recLat r) (l₁.foldl batchStep initBest).best_latency = true := by
    refine ⟨hpos, ?_⟩
    cases hAl : (l₁.foldl batchStep initBest).best_latency with
    | nan => rw [hAl] at hAlat; exact hAlat.elim
    | inf => rfl
    | fin q =>
      rw [hAl] at hAlat
      rw [rltQ_fin, decide_eq_true_eq]
      exact hAlat
  have hupd : (batchStep (l₁.foldl batchStep initBest) (some r)).best_latency =
        RFloat.fin (recLat r) ∧
      (batchStep (l₁.foldl batchStep initBest) (some r)).best_latency_time = r.timestamp := by
    simp only [recLat] at hcond
    simp only [batchStep, latUpd]
    rw [if_pos hcond]
    exact ⟨rfl, rfl⟩
  have hkeep := foldl_batchStep_lat_keep l₂ _ (recLat r) hupd.1 h₂
  exact ⟨hkeep.1, by rw [hkeep.2, hupd.2]⟩

theorem batchStep_zero_latency_excluded (acc : BatchResult) (r : RecordFile)
    (h : recLat r = 0) :
    (batchStep acc (some r)).best_latency = acc.best_latency ∧
    (batchStep acc (some r)).best_latency_time = acc.best_latency_time :=
  batchStep_some_lat_keep acc r (by rw [h]; rintro ⟨h0, _⟩; exact absurd h0 (lt_irrefl 0))

/-- C4, counterexample.  In a batch whose sequence holds two records with
equal `completedQPS` 5, the first one timestamped 2 and the second timestamped
1, the reduction keeps the tie-break timestamp 2 — the first record in
sequence order (the most recent one, given the caller's newest-first listing)
— not the earliest timestamp 1 claimed. -/
theorem batch_tiebreak_not_earliest_time :
    (calculate_best_records_batch
        [some ({ timestamp := some 2, stats := { avgCompletedQPS := 5 } } : RecordFile),
         some ({ timestamp := some 1, stats := { avgCompletedQPS := 5 } } : RecordFile)]).best_qps_time =
      some 2 ∧
    (calculate_best_records_batch
        [some ({ timestamp := some 2, stats := { avgCompletedQPS := 5 } } : RecordFile),
         some ({ timestamp := some 1, stats := { avgCompletedQPS := 5 } } : RecordFile)]).best_qps_time ≠
      some 1 := by
  have h : (calculate_best_records_batch
      [some ({ timestamp := some 2, stats := { avgCompletedQPS := 5 } } : RecordFile),
       some ({ timestamp := some 1, stats := { avgCompletedQPS := 5 } } : RecordFile)]).best_qps_time =
      some 2 := by
    norm_num [calculate_best_records_batch, batchStep, qpsUpd, latUpd, initBest, rltQ_nan,
      rltQ_inf, rltQ_fin, calculate_overall_metrics, avgLatencyOf, sensorBucketsOf,
      highPriorityLatencyOf, calculate_data_loss_rate, calculate_p99_latency,
      List.foldl_cons, List.foldl_nil]
  refine ⟨h, ?_⟩
  rw [h]
  intro hcontr
  have : (2 : ℚ) = 1 := Option.some.inj hcontr
  norm_num at this

/-- C4, amended.  Within a batch reduction: best QPS is the maximum
`completedQPS` (floored at the 0 initialisation), with ties broken by the
FIRST record in the scanned sequence (with the caller's newest-first listing,
that is the latest timestamp, not the earliest); best latency is the minimum
strictly-positive computed `avgLatency`, ties again broken by the first
record in sequence order; and a record whose computed `avgLatency` is 0
(for example because its histogram is empty) never changes the latency
fields of the reduction state. -/
theorem batch_reduction_characterized :
    (∀ l : List (Option RecordFile), (calculate_best_records_batch l).best_qps =
      (readables l).foldl (fun m r => max m (recQps r)) 0) ∧
    (∀ (l₁ l₂ : List (Option RecordFile)) (r : RecordFile), 0 < recQps r →
      (∀ x ∈ readables l₁, recQps x < recQps r) →
      (∀ x ∈ readables l₂, recQps x ≤ recQps r) →
      (calculate_best_records_batch (l₁ ++ some r :: l₂)).best_qps = recQps r ∧
      (calculate_best_records_batch (l₁ ++ some r :: l₂)).best_qps_time = r.timestamp) ∧
    (∀ (l₁ l₂ : List (Option RecordFile)) (r : RecordFile), 0 < recLat r →
      (∀ x ∈ readables l₁, 0 < recLat x → recLat r < recLat x) →
      (∀ x ∈ readables l₂, 0 < recLat x → recLat r ≤ recLat x) →
      (calculate_best_records_batch (l₁ ++ some r :: l₂)).best_latency =
        RFloat.fin (recLat r) ∧
      (calculate_best_records_batch (l₁ ++ some r :: l₂)).best_latency_time = r.timestamp) ∧
    (∀ (acc : BatchResult) (r : RecordFile), recLat r = 0 →
      (batchStep acc (some r)).best_latency = acc.best_latency ∧
      (batchStep acc (some r)).best_latency_time = acc.best_latency_time) := by
  refine ⟨?_, ?_, ?_, ?_⟩
  · intro l
    exact foldl_batchStep_qps_val l initBest
  · intro l₁ l₂ r hpos h₁ h₂
    exact batch_qps_first_max l₁ l₂ r hpos h₁ h₂
  · intro l₁ l₂ r hpos h₁ h₂
    exact batch_lat_first_min l₁ l₂ r hpos h₁ h₂
  · intro acc r h
    exact batchStep_zero_latency_excluded acc r h

/-- C4, witness: the first-occurrence QPS characterization instantiated at a
single-record archive. -/
theorem batch_reduction_characterized_witness :
    (calculate_best_records_batch
        ([] ++ some ({ timestamp := some 3, stats := { avgCompletedQPS := 7 } } : RecordFile) :: [])).best_qps =
      recQps ({ timestamp := some 3, stats := { avgCompletedQPS := 7 } } : RecordFile) ∧
    (calculate_best_records_batch
        ([] ++ some ({ timestamp := some 3, stats := { avgCompletedQPS := 7 } } : RecordFile) :: [])).best_qps_time =
      some 3 :=
  batch_reduction_characterized.2.1 [] []
    ({ timestamp := some 3, stats := { avgCompletedQPS := 7 } } : RecordFile)
    (by norm_num [recQps])
    (fun x hx => absurd hx (List.not_mem_nil x))
    (fun x hx => absurd hx (List.not_mem_nil x))

theorem finalizeBest_inf (b : BatchResult) (h : b.best_latency = RFloat.inf) :
    finalizeBest b = ⟨b.best_qps, b.best_qps_time, none, none⟩ := by
  unfold finalizeBest
  rw [if_pos h]

theorem mem_readables {r : RecordFile} {l : List (Option RecordFile)} :
    r ∈ readables l ↔ some r ∈ l := by
  simp [readables, List.mem_filterMap]

theorem foldl_batchStep_lat_inf (l : List (Option RecordFile)) :
    ∀ a : BatchResult, a.best_latency = RFloat.inf →
      (∀ x ∈ readables l, recLat x ≤ 0) →
      (l.foldl batchStep a).best_latency = RFloat.inf := by
  induction l with
  | nil => intro a h _; exact h
  | cons r l ih =>
    intro a h hl
    cases r with
    | none => exact ih a h hl
    | some rec =>
      rw [List.foldl_cons]
      refine ih _ ?_ (fun x hx => hl x (by rw [readables_cons_some]; exact List.mem_cons_of_mem _ hx))
      have hk := batchStep_some_lat_keep a rec (by
        rintro ⟨h0, _⟩
        exact absurd h0 (not_lt.mpr (hl rec (by rw [readables_cons_some]; exact List.mem_cons_self _ _))))
      rw [hk.1, h]

theorem latComb_inf_right (m : RFloat) : latComb m RFloat.inf = m := by
  simp [latComb]

theorem foldl_latComb_all_inf (bs : List (List (Option RecordFile))) :
    ∀ m : RFloat, (∀ b ∈ bs, (calculate_best_records_batch b).best_latency = RFloat.inf) →
      bs.foldl (fun m b => latComb m (calculate_best_records_batch b).best_latency) m = m := by
  induction bs with
  | nil => intro m _; rfl
  | cons b bs ih =>
    intro m h
    rw [List.foldl_cons, h b (List.mem_cons_self _ _), latComb_inf_right]
    exact ih m (fun b' hb' => h b' (List.mem_cons_of_mem _ hb'))

/-- C6.  An empty archive yields `bestQps = 0` with explicitly absent
timestamps and latency; and whenever no readable record has a strictly
positive computed latency, the returned `bestLatency` and `bestLatencyAt`
are explicitly absent (`none`) — the infinity sentinel used inside the
reduction never escapes the call. -/
theorem best_latency_absent_without_positive
    (cache : Option TeamCache) (now : ℚ) (files : List (Option RecordFile))
    (completed : List (List (Option RecordFile)))
    (hperm : completed.Perm (chunkList BATCH_SIZE files))
    (hnopos : ∀ r ∈ readables files, recLat r ≤ 0) :
    (files = [] →
      (calculate_best_records cache now files completed).result = ⟨0, none, none, none⟩) ∧
    (calculate_best_records cache now files completed).result.best_latency = none ∧
    (calculate_best_records cache now files completed).result.best_latency_time = none := by
  constructor
  · intro h
    subst h
    rfl
  · unfold calculate_best_records
    by_cases he : files.isEmpty = true
    · rw [if_pos he]
      exact ⟨rfl, rfl⟩
    · rw [if_neg he]
      by_cases hlen : files.length ≤ BATCH_SIZE
      · rw [if_pos hlen]
        have hinf : (calculate_best_records_batch files).best_latency = RFloat.inf :=
          foldl_batchStep_lat_inf files initBest rfl hnopos
        rw [finalizeBest_inf _ hinf]
        exact ⟨rfl, rfl⟩
      · rw [if_neg hlen]
        have hb : ∀ b ∈ completed,
            (calculate_best_records_batch b).best_latency = RFloat.inf := by
          intro b hbmem
          apply foldl_batchStep_lat_inf b initBest rfl
          intro x hx
          apply hnopos
          rw [mem_readables] at hx ⊢
          have h1 : some x ∈ completed.flatten := List.mem_flatten.mpr ⟨b, hbmem, hx⟩
          have h2 : completed.flatten.Perm files := by
            have h3 := List.Perm.join hperm
            rw [chunkList_flatten BATCH_SIZE (by decide) files] at h3
            exact h3
          exact h2.mem_iff.mp h1
        have hmb : (mergeBatches completed).best_latency = RFloat.inf := by
          show (scanBatches initBest completed).best_latency = _
          rw [scanBatches_lat_proj]
          exact foldl_latComb_all_inf completed initBest.best_latency hb
        rw [finalizeBest_inf _ hmb]
        exact ⟨rfl, rfl⟩

/-- C6, witness: a one-record archive whose record has computed latency 0
(empty histogram, no precomputed average) gets an explicitly absent best
latency. -/
theorem best_latency_absent_without_positive_witness :
    (calculate_best_records none 0
        [some ({ timestamp := some 1, stats := {} } : RecordFile)]
        (chunkList BATCH_SIZE
          [some ({ timestamp := some 1, stats := {} } : RecordFile)])).result.best_latency =
      none :=
  (best_latency_absent_without_positive none 0
    [some ({ timestamp := some 1, stats := {} } : RecordFile)]
    (chunkList BATCH_SIZE [some ({ timestamp := some 1, stats := {} } : RecordFile)])
    (List.Perm.refl _)
    (by
      intro r hr
      rw [mem_readables] at hr
      rcases List.mem_singleton.mp hr with h
      have h2 : r = ({ timestamp := some 1, stats := {} } : RecordFile) := Option.some.inj h
      subst h2
      exact le_refl _)).2.1

theorem p99Go_inf_last :
    ∀ (bs : List ℕ) (t : ℚ) (i : ℕ) (c : ℚ),
      i + bs.length = 13 → c < t →
      (∀ k : ℕ, k + 1 < bs.length → c + ((bs.take (k + 1)).sum : ℚ) < t) →
      t ≤ c + (bs.sum : ℚ) →
      p99Go bs t i c = RFloat.inf := by
  intro bs
  induction bs with
  | nil =>
    intro t i c _ hc _ hsum
    exfalso
    simp only [List.sum_nil, Nat.cast_zero, add_zero] at hsum
    linarith
  | cons b rest ih =>
    intro t i c hlen hc hmid hsum
    cases rest with
    | nil =>
      have hi : i = 12 := by
        simp only [List.length_cons, List.length_nil] at hlen
        omega
      subst hi
      have hb : t ≤ c + (b : ℚ) := by
        simp only [List.sum_cons, List.sum_nil, Nat.add_zero] at hsum
        exact hsum
      have hbpos : (0 : ℚ) < (b : ℚ) := by linarith
      simp only [p99Go]
      rw [if_pos hb, if_neg (by decide : ¬(12 = 0))]
      have hprev : c + (b : ℚ) - (b : ℚ) = c := by ring
      rw [hprev]
      have hg1 : bucketBoundaries.getD (12 - 1) RFloat.nan = RFloat.fin 5000 := rfl
      have hg2 : bucketBoundaries.getD 12 RFloat.nan = RFloat.inf := rfl
      rw [hg1, hg2]
      have hratio : 0 < (t - c) / (b : ℚ) := div_pos (by linarith) hbpos
      show raddF (RFloat.fin 5000)
          (rmulQ ((t - c) / (b : ℚ)) (rsubF RFloat.inf (RFloat.fin 5000))) = RFloat.inf
      rw [show rsubF RFloat.inf (RFloat.fin 5000) = RFloat.inf from rfl]
      rw [show rmulQ ((t - c) / (b : ℚ)) RFloat.inf = RFloat.inf from by
        simp only [rmulQ]; rw [if_pos hratio]]
      rfl
    | cons b2 rs =>
      have hstep : c + (b : ℚ) < t := by
        have h0 := hmid 0 (by simp only [List.length_cons]; omega)
        simp only [List.take_succ_cons, List.take_zero, List.sum_cons, List.sum_nil,
          Nat.add_zero] at h0
        exact h0
      simp only [p99Go]
      rw [if_neg (not_le.mpr hstep)]
      apply ih t (i + 1) (c + (b : ℚ))
      · simp only [List.length_cons] at hlen ⊢
        omega
      · exact hstep
      · intro k hk
        have hmk := hmid (k + 1) (by simp only [List.length_cons] at hk ⊢; omega)
        simp only [List.take_succ_cons, List.sum_cons, Nat.cast_add] at hmk ⊢
        linarith
      · simp only [List.sum_cons, Nat.cast_add] at hsum ⊢
        linarith

/-- C10.  For every 13-bucket histogram whose cumulative count first reaches
the 99% threshold only at the final open-ended bucket (index 12, boundary
infinity), `calculate_p99_latency` returns positive infinity, and that
infinity flows unchanged into the `p99Latency` field of the summary produced
by `calculate_overall_metrics`. -/
theorem p99_infinite_when_mass_in_last_bucket (buckets : List ℕ)
    (hlen : buckets.length = 13) (hpos : 0 < buckets.sum)
    (hlow : ((buckets.take 12).sum : ℚ) < (buckets.sum : ℚ) * (99 / 100)) :
    calculate_p99_latency buckets = RFloat.inf ∧
    ∀ s : Stats, sensorBucketsOf s = buckets →
      (calculate_overall_metrics s).p99_latency = RFloat.inf := by
  have htotpos : (0 : ℚ) < (buckets.sum : ℚ) := by exact_mod_cast hpos
  have hmain : calculate_p99_latency buckets = RFloat.inf := by
    unfold calculate_p99_latency
    rw [if_neg (by omega : ¬buckets.sum = 0)]
    apply p99Go_inf_last buckets _ 0 0
    · simpa using hlen
    · have : (0 : ℚ) < (99 : ℚ) / 100 := by norm_num
      positivity
    · intro k hk
      have hk12 : k + 1 ≤ 12 := by omega
      have hmono : ((buckets.take (k + 1)).sum : ℚ) ≤ ((buckets.take 12).sum : ℚ) := by
        have hn : (buckets.take (k + 1)).sum ≤ (buckets.take 12).sum := by
          have he : buckets.take (k + 1) = (buckets.take 12).take (k + 1) := by
            rw [List.take_take, min_eq_left hk12]
          rw [he]
          conv_rhs => rw [← List.take_append_drop (k + 1) (buckets.take 12)]
          rw [List.sum_append]
          exact Nat.le_add_right _ _
        exact_mod_cast hn
      rw [zero_add]
      linarith
    · have h99 : (buckets.sum : ℚ) * (99 / 100) ≤ (buckets.sum : ℚ) * 1 := by
        apply mul_le_mul_of_nonneg_left (by norm_num) (le_of_lt htotpos)
      rw [zero_add]
      linarith
  refine ⟨hmain, fun s hs => ?_⟩
  show calculate_p99_latency (sensorBucketsOf s) = RFloat.inf
  rw [hs]
  exact hmain

/-- C10, witness: a histogram with all 100 requests in the final open-ended
bucket produces an infinite p99. -/
theorem p99_infinite_when_mass_in_last_bucket_witness :
    calculate_p99_latency [0, 0, 0, 0, 0, 0, 0, 0, 0, 0, 0, 0, 100] = RFloat.inf :=
  (p99_infinite_when_mass_in_last_bucket [0, 0, 0, 0, 0, 0, 0, 0, 0, 0, 0, 0, 100]
    (by decide) (by decide)
    (by norm_num [List.take_succ_cons, List.take_zero, List.sum_cons, List.sum_nil])).1
